import Mathlib

/-!
Verification of the description-normalization pipeline of
`src/ubs_cresus_converter.py` (functions `apply_cleaning_rules`, lines 72-134,
and `clean_description`, lines 137-213).

The Python code is shallowly embedded over `List Char` / `String`:

* Python character classes (`\s`, `\d`, `\w`) are modelled on their ASCII
  fragment (the inputs of interest are bank-narration text).
* Each fixed regular expression of the source is compiled by hand into a
  scanning function that mirrors the semantics of `re.search` / `re.sub`
  (leftmost match, scan positions left to right, after a replacement the
  scan resumes after the replaced span, greedy quantifiers with the
  backtracking the concrete pattern admits).
* User-configured `regex_replacements` rules carry the denotations of their
  pattern (`pattern : String → Bool` for the `re.search` test, and the full
  `re.sub pattern replace` as `subFn : String → String`), since an arbitrary
  pattern text cannot be interpreted here.
* Python dict accesses `rule['search']`, `rule['replace']`, `rule['pattern']`
  can raise `KeyError`; the corresponding fields are `Option`s and the
  engine returns `Option String`, `none` modelling a raised exception.
  `dict.get(k, default)` is `Option.getD`.
-/

/-- ASCII fragment of Python's whitespace class `\s` (also used by
`str.strip()` / `str.rstrip()` with no argument). -/
def pyIsSpace (c : Char) : Bool :=
  c == ' ' || c == '\t' || c == '\n' || c == '\r' || c == '\x0b' || c == '\x0c'

/-- Python's `\d` on ASCII. -/
def pyIsDigit (c : Char) : Bool :=
  c.isDigit

/-- Python's `\w` on ASCII. -/
def pyIsWord (c : Char) : Bool :=
  c.isAlphanum || c == '_'

/-- Drop trailing characters satisfying `p` (Python `str.rstrip`). -/
def rstripCore (p : Char → Bool) (l : List Char) : List Char :=
  (l.reverse.dropWhile p).reverse

/-- Drop leading and trailing characters satisfying `p` (Python `str.strip`). -/
def stripCore (p : Char → Bool) (l : List Char) : List Char :=
  rstripCore p (l.dropWhile p)

/-- Python `str.strip()` on `String`. -/
def pyStrip (s : String) : String :=
  String.mk (stripCore pyIsSpace s.data)

/-- Python's substring test `pat in l` (empty pattern is contained in
everything, as in Python). -/
def containsCore (pat : List Char) : List Char → Bool
  | [] => pat.isPrefixOf []
  | c :: cs => pat.isPrefixOf (c :: cs) || containsCore pat cs

/-- Python `pat in text` on `String`. -/
def strContains (text pat : String) : Bool :=
  containsCore pat.data text.data

/-- Python `str.replace` for a non-empty pattern `p :: ps`: scan left to
right, replace each non-overlapping occurrence, resume after the replaced
span.  Structural recursion on a fuel that bounds the input length (the
scan consumes at least one character per step, so `l.length` is enough;
the fuel-exhausted branch is unreachable from `replAllCore`). -/
def replAllGo (p : Char) (ps : List Char) (rep : List Char) : Nat → List Char → List Char
  | _, [] => []
  | 0, l => l
  | fuel + 1, c :: cs =>
    if (p :: ps).isPrefixOf (c :: cs) then
      rep ++ replAllGo p ps rep fuel (cs.drop ps.length)
    else
      c :: replAllGo p ps rep fuel cs

/-- `replAllGo` with its fuel. -/
def replAllCore (p : Char) (ps : List Char) (rep : List Char) (l : List Char) : List Char :=
  replAllGo p ps rep l.length l

/-- Python `text.replace(pat, rep)`, including the empty-pattern case
(`"abc".replace("", "X") = "XaXbXcX"`). -/
def pyReplace (text pat rep : String) : String :=
  match pat.data with
  | [] => String.mk (rep.data ++ text.data.flatMap (fun c => c :: rep.data))
  | p :: ps => String.mk (replAllCore p ps rep.data text.data)

/-- `re.sub(r'\s+', ' ', ·)`: collapse every maximal whitespace run to a
single space.  Fuel-structured like `replAllGo` (each step consumes at
least one character, so `l.length` fuel suffices). -/
def collapseGo : Nat → List Char → List Char
  | _, [] => []
  | 0, l => l
  | fuel + 1, c :: cs =>
    if pyIsSpace c then ' ' :: collapseGo fuel (cs.dropWhile pyIsSpace)
    else c :: collapseGo fuel cs

/-- `collapseGo` with its fuel. -/
def collapseCore (l : List Char) : List Char :=
  collapseGo l.length l

/-- String version of `collapseCore`. -/
def collapseStr (s : String) : String :=
  String.mk (collapseCore s.data)

/-- Generic `re.sub pattern rep` driver: `m t` returns the suffix left after
a match of the pattern at the head of `t` (consuming at least one
character), or `none` when the pattern does not match at this position. -/
def subMGo (m : List Char → Option (List Char)) (rep : List Char) :
    Nat → List Char → List Char
  | _, [] => []
  | 0, l => l
  | fuel + 1, c :: cs =>
    match m (c :: cs) with
    | some rest =>
      if rest.length < cs.length + 1 then rep ++ subMGo m rep fuel rest
      else c :: subMGo m rep fuel cs
    | none => c :: subMGo m rep fuel cs

/-- `subMGo` with its fuel (here too one character is consumed per step). -/
def subM (m : List Char → Option (List Char)) (rep : List Char) (l : List Char) : List Char :=
  subMGo m rep l.length l

/-- Match a literal at the head of the input. -/
def eatLit (lit : List Char) (s : List Char) : Option (List Char) :=
  if lit.isPrefixOf s then some (s.drop lit.length) else none

/-- Match `\s+` at the head of the input (at least one whitespace char). -/
def eatWs1 (s : List Char) : Option (List Char) :=
  match s with
  | c :: cs => if pyIsSpace c then some (cs.dropWhile pyIsSpace) else none
  | [] => none

/-- Match `\w+` at the head of the input (at least one word char). -/
def eatWord1 (s : List Char) : Option (List Char) :=
  match s with
  | c :: cs => if pyIsWord c then some (cs.dropWhile pyIsWord) else none
  | [] => none

/-- Matcher for `BI\s*C\s*/\s*SWIFT\s+\w+` (src line 172).  The literals
`C`, `/`, `SWIFT` do not begin with whitespace, so the greedy `\s*` and
`\s+` need no backtracking: each takes its maximal run. -/
def bicMatch (s : List Char) : Option (List Char) :=
  (eatLit "BI".data s).bind fun a =>
  (eatLit "C".data (a.dropWhile pyIsSpace)).bind fun b =>
  (eatLit "/".data (b.dropWhile pyIsSpace)).bind fun c =>
  (eatLit "SWIFT".data (c.dropWhile pyIsSpace)).bind fun d =>
  (eatWs1 d).bind eatWord1

/-- Matcher for `BIC\s*/\s*SWIFT\s+\w+` (src line 173). -/
def bic2Match (s : List Char) : Option (List Char) :=
  (eatLit "BIC".data s).bind fun b =>
  (eatLit "/".data (b.dropWhile pyIsSpace)).bind fun c =>
  (eatLit "SWIFT".data (c.dropWhile pyIsSpace)).bind fun d =>
  (eatWs1 d).bind eatWord1

/-- Matcher for `:\s*BI\s*C\s*/\s*SWIFT\s+\w+` (src line 174). -/
def bic3Match (s : List Char) : Option (List Char) :=
  (eatLit ":".data s).bind fun a => bicMatch (a.dropWhile pyIsSpace)

/-- Matcher for `<label>` followed by (optionally) `\s*`, then `[^;]+;?`
(src lines 170, 175, 194, 195: the IBAN, costs and transaction-number
removers).  When the character after the whitespace gap is `;` (or the
end), the greedy `\s*` backtracks one step so that `[^;]+` can consume the
final whitespace character; this needs at least one gap character. -/
def labelGapMatch (label : List Char) (gap : Bool) (t : List Char) : Option (List Char) :=
  if label.isPrefixOf t then
    let u := t.drop label.length
    let ws := if gap then u.takeWhile pyIsSpace else []
    let v := u.drop ws.length
    match v with
    | c :: vs =>
      if c ≠ ';' then
        let rest := v.dropWhile (· ≠ ';')
        some (match rest with | ';' :: r => r | _ => rest)
      else if 0 < ws.length then some vs
      else none
    | [] => if 0 < ws.length then some [] else none
  else none

/-- Matcher for `\(\*[a-z]\)[^;]*` (src line 196): a parenthesized
single-letter footnote marker and everything up to the next `;`. -/
def footMatch (t : List Char) : Option (List Char) :=
  match t with
  | '(' :: '*' :: c :: ')' :: rest =>
    if 'a' ≤ c && c ≤ 'z' then some (rest.dropWhile (· ≠ ';')) else none
  | _ => none

/-- Matcher for `\(\s*\)` (src line 125): an empty parenthesis pair
possibly containing only whitespace. -/
def parenMatch (t : List Char) : Option (List Char) :=
  match t with
  | '(' :: rest =>
    (match rest.dropWhile pyIsSpace with | ')' :: r => some r | _ => none)
  | _ => none

/-- Matcher for `\s*:\s*;` (src line 177), replaced by `";"`: the two `\s*`
are whitespace-only, so each must end exactly at the following literal. -/
def colonSemiMatch (t : List Char) : Option (List Char) :=
  match t.dropWhile pyIsSpace with
  | ':' :: r =>
    (match r.dropWhile pyIsSpace with | ';' :: rest => some rest | _ => none)
  | _ => none

/-- Does the whole input match `\s*:\s*$` (src line 176)?  Used to find the
leftmost position whose entire tail is whitespace, one colon, whitespace. -/
def trailColonTail (t : List Char) : Bool :=
  match t.dropWhile pyIsSpace with
  | ':' :: r => r.all pyIsSpace
  | _ => false

/-- `re.sub(r'\s*:\s*$', '', ·)`: remove the leftmost tail matching the
anchored pattern (there is at most one match since it runs to `$`). -/
def subTrailColonCore : List Char → List Char
  | [] => []
  | c :: cs => if trailColonTail (c :: cs) then [] else c :: subTrailColonCore cs

/-- Is there a run of (at least) four consecutive ASCII digits? (`\d{4}`) -/
def hasRun4 (l : List Char) : Bool :=
  go l 0
where
  /-- Scan with the length of the current digit run. -/
  go : List Char → Nat → Bool
    | [], _ => false
    | c :: cs, n =>
      if pyIsDigit c then (if 3 ≤ n then true else go cs (n + 1))
      else go cs 0

/-- Does the tail match `;[^;]*\d{4}[^;]*;[^;]*$` (src line 162)?  Because
both `[^;]*` groups exclude `;` and the match runs to `$`, the tail must
consist of the leading `;`, a `;`-free segment containing a 4-digit run,
one more `;`, and a `;`-free remainder: exactly two semicolons in all. -/
def addrTail (t : List Char) : Bool :=
  match t with
  | ';' :: rest => rest.count ';' == 1 && hasRun4 (rest.takeWhile (· ≠ ';'))
  | _ => false

/-- `re.sub(r';[^;]*\d{4}[^;]*;[^;]*$', '', ·)` (src line 162): scan left to
right for the first position whose tail matches; everything from there to
the end is removed. -/
def stripAddrCore : List Char → List Char
  | [] => []
  | c :: cs => if addrTail (c :: cs) then [] else c :: stripAddrCore cs

/-- String version of `stripAddrCore` (beneficiary address strip). -/
def stripAddr (s : String) : String :=
  String.mk (stripAddrCore s.data)

/-- `re.search` driver for the two extraction patterns: scan positions left
to right; where `label` occurs, run `after` on the remainder; on failure
continue at the next position (as the regex engine does). -/
def findLabelGroup (label : List Char) (after : List Char → Option (List Char)) :
    List Char → Option (List Char)
  | [] => none
  | c :: cs =>
    if label.isPrefixOf (c :: cs) then
      match after ((c :: cs).drop label.length) with
      | some g => some g
      | none => findLabelGroup label after cs
    else findLabelGroup label after cs

/-- Continuation of `Reference no\. QRR:\s*([0-9 ]+)` (src line 150) after
the label: greedy `\s*` takes the maximal whitespace run; if a digit
follows, the group is the maximal `[0-9 ]` run from there; otherwise the
greedy quantifier backtracks to the last `' '` of the whitespace run (a
space is in `[0-9 ]`), making the group a single space; with no space in
the run the match fails at this position. -/
def qrrAfter (u : List Char) : Option (List Char) :=
  let ws := u.takeWhile pyIsSpace
  let v := u.drop ws.length
  match v with
  | c :: _ =>
    if pyIsDigit c then some (v.takeWhile (fun x => pyIsDigit x || x == ' '))
    else if ws.contains ' ' then some [' ']
    else none
  | [] => if ws.contains ' ' then some [' '] else none

/-- Continuation of `Motif du paiement:\s*([^;]+)` (src line 154) after the
label: greedy `\s*` then `[^;]+` up to the next `;` or the end; if the
first non-whitespace character is `;` (or the input ends), `\s*`
backtracks one step and the group is the last whitespace character. -/
def motifAfter (u : List Char) : Option (List Char) :=
  let ws := u.takeWhile pyIsSpace
  let v := u.drop ws.length
  match v with
  | c :: _ =>
    if c ≠ ';' then some (v.takeWhile (· ≠ ';'))
    else (match ws.reverse with | w :: _ => some [w] | [] => none)
  | [] => (match ws.reverse with | w :: _ => some [w] | [] => none)

/-- `rules['simple_replacements']` / `rules['custom_replacements']` entries
(JSON objects; a key may be absent, hence `Option` fields).
`rule['search']` / `rule['replace']` raise `KeyError` when absent;
`rule.get('enabled', True)` / `rule.get('full_replacement', False)`
default. -/
structure SimpleRule where
  enabled : Option Bool := none
  full_replacement : Option Bool := none
  search : Option String := none
  replace : Option String := none

/-- `rules['regex_replacements']` entries.  The pattern text itself is not
interpreted; a rule carries the denotations of its compiled pattern:
`pattern` is `fun t => re.search(rule['pattern'], t) is not None` (absent
key modelled by `none`) and `subFn` is `fun t => re.sub(rule['pattern'],
rule['replace'], t)`, consulted only after both keys were accessed. -/
structure RegexRule where
  enabled : Option Bool := none
  full_replacement : Option Bool := none
  pattern : Option (String → Bool) := none
  replace : Option String := none
  subFn : String → String := id

/-- `rules['cleanup_options']` (src lines 113-132); every key read with a
`.get` default. -/
structure CleanupOptions where
  trim_whitespace : Option Bool := none
  remove_duplicate_spaces : Option Bool := none
  remove_trailing_semicolons : Option Bool := none
  remove_trailing_colons : Option Bool := none
  remove_empty_parentheses : Option Bool := none
  max_length : Option Int := none

/-- The `rules` sub-dict of the configuration (src line 77). -/
structure RulesDict where
  simple_replacements : Option (List SimpleRule) := none
  regex_replacements : Option (List RegexRule) := none
  custom_replacements : Option (List SimpleRule) := none
  cleanup_options : Option CleanupOptions := none

/-- The `output_format` sub-dict (src line 206). -/
structure OutputFormat where
  separator : Option String := none

/-- A loaded rule configuration (a non-empty JSON dict). -/
structure RulesConfig where
  enabled : Option Bool := none
  rules : Option RulesDict := none
  output_format : Option OutputFormat := none

/-- One pass of the simple/custom replacement loop body (src lines 80-88 and
102-110): skipped when disabled; with `full_replacement`, if the search
string occurs anywhere the whole text becomes the replacement; otherwise
every occurrence is replaced.  `none` = a `KeyError` was raised. -/
def applySimpleRule (text : String) (rule : SimpleRule) : Option String :=
  if rule.enabled.getD true then
    if rule.full_replacement.getD false then
      rule.search.bind fun s =>
        if strContains text s then rule.replace else some text
    else
      rule.search.bind fun s => rule.replace.map fun rep => pyReplace text s rep
  else some text

/-- One pass of the regex replacement loop body (src lines 91-99). -/
def applyRegexRule (text : String) (rule : RegexRule) : Option String :=
  if rule.enabled.getD true then
    if rule.full_replacement.getD false then
      rule.pattern.bind fun p =>
        if p text then rule.replace else some text
    else
      rule.pattern.bind fun _ => rule.replace.map fun _ => rule.subFn text
  else some text

/-- The truncation step of src lines 130-132: `text[:max_length].rstrip()`
when `0 < max_length < len(text)`, otherwise the text unchanged. -/
def truncCore (l : List Char) (m : Int) : List Char :=
  if 0 < m ∧ m < (l.length : Int) then rstripCore pyIsSpace (l.take m.toNat) else l

/-- The cleanup stage (src lines 113-132) on `List Char`, in the source's
fixed order: collapse whitespace, strip trailing `;`, strip trailing `:`,
remove empty parentheses, trim, truncate. -/
def cleanupCore (l : List Char) (c : CleanupOptions) : List Char :=
  let l := if c.remove_duplicate_spaces.getD true then collapseCore l else l
  let l := if c.remove_trailing_semicolons.getD true then rstripCore (fun x => x == ';') l else l
  let l := if c.remove_trailing_colons.getD true then rstripCore (fun x => x == ':') l else l
  let l := if c.remove_empty_parentheses.getD true then subM parenMatch [] l else l
  let l := if c.trim_whitespace.getD true then stripCore pyIsSpace l else l
  truncCore l (c.max_length.getD 0)

/-- `apply_cleaning_rules` (src lines 72-134): disabled configurations pass
the text through; otherwise the three rule buckets run in declared order,
then the cleanup options.  `none` models a raised `KeyError` from a
malformed rule entry. -/
def apply_cleaning_rules (text : String) (rules_config : RulesConfig) : Option String :=
  if ¬ rules_config.enabled.getD true then some text else
  let rules := rules_config.rules.getD {}
  ((rules.simple_replacements.getD []).foldlM applySimpleRule text).bind fun t1 =>
  ((rules.regex_replacements.getD []).foldlM applyRegexRule t1).bind fun t2 =>
  ((rules.custom_replacements.getD []).foldlM applySimpleRule t2).map fun t3 =>
  String.mk (cleanupCore t3.data (rules.cleanup_options.getD {}))

/-- The three description fields of a narration row; `none` models Python
`None`, `some ""` an empty string. -/
def descTruthy : Option String → Bool
  | none => false
  | some s => s ≠ ""

/-- `' '.join([d.strip() for d in [desc1, desc2, desc3] if d and d.strip()])`
(src line 141). -/
def fullDescOf (d1 d2 d3 : Option String) : String :=
  String.intercalate " "
    (([d1, d2, d3].filterMap fun d =>
      if descTruthy d ∧ pyStrip (d.getD "") ≠ "" then some (pyStrip (d.getD "")) else none))

/-- `beneficiary = desc1.strip() if desc1 else ''` (src line 147). -/
def bene0Of (d1 : Option String) : String :=
  match d1 with
  | some s => if s ≠ "" then pyStrip s else ""
  | none => ""

/-- The beneficiary after the conditional address strip of src lines 160-162
(the variable is reassigned only when it was truthy). -/
def beneOf (d1 : Option String) : String :=
  if bene0Of d1 ≠ "" then stripAddr (bene0Of d1) else bene0Of d1

/-- `re.search(r'Reference no\. QRR:\s*([0-9 ]+)', full_desc)`, the captured
group stripped (src lines 150-151); `none` when there is no match. -/
def qrrValOf (full : String) : Option String :=
  (findLabelGroup "Reference no. QRR:".data qrrAfter full.data).map
    fun g => pyStrip (String.mk g)

/-- `re.search(r'Motif du paiement:\s*([^;]+)', full_desc)`, the captured
group stripped (src lines 154-155). -/
def motifRawOf (full : String) : Option String :=
  (findLabelGroup "Motif du paiement:".data motifAfter full.data).map
    fun g => pyStrip (String.mk g)

/-- The motif cleanup pipeline of src lines 170-181, in source order:
IBAN remover, the three BIC/SWIFT removers, the costs remover, trailing
colon, colon-before-semicolon, whitespace collapse + trim, and the final
`strip('; :')`. -/
def motifClean (m : String) : String :=
  let l := m.data
  let l := subM (labelGapMatch "Account no. IBAN:".data true) [] l
  let l := subM bicMatch [] l
  let l := subM bic2Match [] l
  let l := subM bic3Match [] l
  let l := subM (labelGapMatch "Coûts:".data true) [] l
  let l := subTrailColonCore l
  let l := subM colonSemiMatch ";".data l
  let l := stripCore pyIsSpace (collapseCore l)
  String.mk (stripCore (fun x => x == ';' || x == ' ' || x == ':') l)

/-- The `Réf. QRR` part appended at src lines 165-166. -/
def qrrPartOf (full : String) : List String :=
  match qrrValOf full with
  | some q => if q ≠ "" then ["Réf. QRR: " ++ q] else []
  | none => []

/-- The motif part appended at src lines 168-184: present only when the raw
motif is truthy and the cleaned motif is non-empty and differs (plain
string inequality) from the beneficiary. -/
def motifPartOf (full : String) (bene : String) : List String :=
  match motifRawOf full with
  | some m0 =>
    if m0 ≠ "" then
      (let m := motifClean m0; if m ≠ "" ∧ m ≠ bene then [m] else [])
    else []
  | none => []

/-- The structured parts list of src lines 158-184. -/
def partsOf (d1 d2 d3 : Option String) : List String :=
  let full := fullDescOf d1 d2 d3
  (if bene0Of d1 ≠ "" then [beneOf d1] else []) ++ qrrPartOf full
    ++ motifPartOf full (beneOf d1)

/-- The per-field cleanup of the fallback path (src lines 192-197):
strip, remove `No de transaction:[^;]+;?`, remove `Coûts:[^;]+;?`, remove
`\(\*[a-z]\)[^;]*`, collapse whitespace, trim. -/
def fallbackClean (s : String) : String :=
  let l := (pyStrip s).data
  let l := subM (labelGapMatch "No de transaction:".data false) [] l
  let l := subM (labelGapMatch "Coûts:".data false) [] l
  let l := subM footMatch [] l
  String.mk (stripCore pyIsSpace (collapseCore l))

/-- The non-empty cleaned fields of the fallback path (src lines 189-199),
taken from the raw first and second description fields. -/
def simplePartsOf (d1 d2 : Option String) : List String :=
  [d1, d2].filterMap fun d =>
    if descTruthy d ∧ pyStrip (d.getD "") ≠ "" then
      (let c := fallbackClean (d.getD ""); if c ≠ "" then some c else none)
    else none

/-- `' | '.join(simple_parts[:2]) if simple_parts else 'Transaction
bancaire'` (src line 201). -/
def fallbackResult (d1 d2 : Option String) : String :=
  let sp := simplePartsOf d1 d2
  if sp ≠ [] then String.intercalate " | " (sp.take 2) else "Transaction bancaire"

/-- The separator lookup of src lines 204-206 (`' | '` when no configuration
was passed). -/
def sepOf (co : Option RulesConfig) : String :=
  match co with
  | some c => (c.output_format.getD {}).separator.getD " | "
  | none => " | "

/-- `result` just before the rule application of src line 211: the fallback
join when the structured parts list has at most one entry, otherwise the
parts joined with the configured separator (src lines 187-207). -/
def result0Of (d1 d2 d3 : Option String) (co : Option RulesConfig) : String :=
  let parts := partsOf d1 d2 d3
  if parts.length ≤ 1 then fallbackResult d1 d2
  else String.intercalate (sepOf co) parts

/-- `clean_description` (src lines 137-213).  Returns `some` of the final
description, or `none` when `apply_cleaning_rules` raised on a malformed
rule entry. -/
def clean_description (d1 d2 d3 : Option String) (co : Option RulesConfig) :
    Option String :=
  if fullDescOf d1 d2 d3 = "" then some "Transaction bancaire" else
  let r0 := result0Of d1 d2 d3 co
  match co with
  | some cfg =>
    (apply_cleaning_rules r0 cfg).map fun r =>
      if r ≠ "" then r else "Transaction bancaire"
  | none => some (if r0 ≠ "" then r0 else "Transaction bancaire")

/-! ## Specification-side predicates used by the claims -/

/-- Whitespace-normalized form of a string (collapse runs, trim), the
normalization named by the spec's "whitespace-normalized equality". -/
def normWS (s : String) : String :=
  pyStrip (collapseStr s)

/-- A well-formed simple/custom rule entry: the mandatory keys are present. -/
def WFSimple (r : SimpleRule) : Prop :=
  r.search.isSome ∧ r.replace.isSome

/-- A well-formed regex rule entry: the mandatory keys are present. -/
def WFRegex (r : RegexRule) : Prop :=
  r.pattern.isSome ∧ r.replace.isSome

/-- A well-formed rule configuration: every rule entry carries its mandatory
keys (the spec's "well-formed RuleConfiguration"). -/
def WFConfig (c : RulesConfig) : Prop :=
  (∀ r ∈ (c.rules.getD {}).simple_replacements.getD [], WFSimple r) ∧
  (∀ r ∈ (c.rules.getD {}).regex_replacements.getD [], WFRegex r) ∧
  (∀ r ∈ (c.rules.getD {}).custom_replacements.getD [], WFSimple r)

/-- The hypothesis of the idempotence claim: no substitution rule's search
string / pattern matches text introduced by its own replacement string. -/
def noRematch (c : RulesConfig) : Prop :=
  (∀ r ∈ (c.rules.getD {}).simple_replacements.getD []
        ++ (c.rules.getD {}).custom_replacements.getD [],
    ∀ s rep, r.search = some s → r.replace = some rep → strContains rep s = false) ∧
  (∀ r ∈ (c.rules.getD {}).regex_replacements.getD [],
    ∀ p rep, r.pattern = some p → r.replace = some rep → p rep = false)

/-- All three substitution-rule buckets are (effectively) empty. -/
def emptyRuleLists (c : RulesConfig) : Prop :=
  (c.rules.getD {}).simple_replacements.getD [] = [] ∧
  (c.rules.getD {}).regex_replacements.getD [] = [] ∧
  (c.rules.getD {}).custom_replacements.getD [] = []

/-- The three cleanup options that strip trailing punctuation / empty
parentheses are disabled. -/
def stripOptsOff (c : RulesConfig) : Prop :=
  ((c.rules.getD {}).cleanup_options.getD {}).remove_trailing_semicolons.getD true = false ∧
  ((c.rules.getD {}).cleanup_options.getD {}).remove_trailing_colons.getD true = false ∧
  ((c.rules.getD {}).cleanup_options.getD {}).remove_empty_parentheses.getD true = false

/-- Invariant established by whitespace collapsing: every whitespace
character is a plain space and no two adjacent characters are both
whitespace. -/
def NiceL (l : List Char) : Prop :=
  (∀ c ∈ l, pyIsSpace c = true → c = ' ') ∧
  l.Chain' (fun a b => ¬ (pyIsSpace a = true ∧ pyIsSpace b = true))

/-- Invariant established by trimming: neither end of the list is
whitespace. -/
def StrippedL (l : List Char) : Prop :=
  (∀ c, l.head? = some c → pyIsSpace c = false) ∧
  (∀ c, l.getLast? = some c → pyIsSpace c = false)

/-! ## Concrete configurations used by counterexamples and witnesses -/

def cfgKillAll : RulesConfig :=
  { rules := some
      { simple_replacements := some
          [{ full_replacement := some true, search := some "", replace := some "" }],
        cleanup_options := some
          { trim_whitespace := some false, remove_duplicate_spaces := some false,
            remove_trailing_semicolons := some false, remove_trailing_colons := some false,
            remove_empty_parentheses := some false, max_length := some 0 } } }

instance (r : SimpleRule) : Decidable (WFSimple r) := by
  unfold WFSimple
  infer_instance

instance (r : RegexRule) : Decidable (WFRegex r) := by
  unfold WFRegex
  infer_instance

def cfgTotality : RulesConfig :=
  { enabled := some true,
    rules := some
      { simple_replacements := some [{ search := some "a", replace := some "b" }],
        regex_replacements := some
          [{ pattern := some (fun _ => false), replace := some "x",
             subFn := fun t => t }],
        custom_replacements := some [] } }

def cfgAtoB : RulesConfig :=
  { enabled := some true,
    rules := some
      { simple_replacements := some [{ search := some "A", replace := some "B" }] } }

def cfgNoStrip : RulesConfig :=
  { rules := some
      ({ cleanup_options := some
          ({ remove_trailing_semicolons := some false,
             remove_trailing_colons := some false,
             remove_empty_parentheses := some false } : CleanupOptions) } : RulesDict) }

/-! ## Theorems -/

/-- Claim C2 (counterexample): the beneficiary extracted from the primary
field `"John Doe;Main St 12;1000;CH"` is not `"John Doe"`. -/
theorem C2_counterexample :
    beneOf (some "John Doe;Main St 12;1000;CH") ≠ "John Doe" := by decide

/-- Claim C2 (amended): the beneficiary extracted from the primary field
`"John Doe;Main St 12;1000;CH"` is `"John Doe;Main St 12"`: the strip
removes only the final `;<segment with a 4-digit run>;<tail>` suffix
(`";1000;CH"`), not everything after the payee name. -/
theorem C2_beneficiary_suffix_strip :
    beneOf (some "John Doe;Main St 12;1000;CH") = "John Doe;Main St 12" := by decide

/-- Claim C8: the reason cleanup (IBAN / BIC-SWIFT / costs removal, colon
fixes, whitespace collapse, trim, and `strip('; :')`, in source order)
maps the raw reason `"BI C / SWIFT ABCUS33 Coûts: 5.00; autre"` to
exactly `"autre"`. -/
theorem C8_reason_cleanup :
    motifClean "BI C / SWIFT ABCUS33 Coûts: 5.00; autre" = "autre" := by decide

lemma isPrefixOf_eq_true_iff (p l : List Char) :
    p.isPrefixOf l = true ↔ ∃ t, l = p ++ t := by
  rw [List.isPrefixOf_iff_prefix]
  constructor
  · rintro ⟨t, rfl⟩; exact ⟨t, rfl⟩
  · rintro ⟨t, rfl⟩; exact ⟨t, rfl⟩

lemma containsCore_eq_true_iff (p l : List Char) :
    containsCore p l = true ↔ ∃ a b, l = a ++ p ++ b := by
  induction l with
  | nil =>
    simp only [containsCore, isPrefixOf_eq_true_iff]
    constructor
    · rintro ⟨t, ht⟩
      exact ⟨[], t, by simpa using ht⟩
    · rintro ⟨a, b, h⟩
      have ha : a = [] := by
        cases a with
        | nil => rfl
        | cons x xs => simp at h
      subst ha
      exact ⟨b, by simpa using h⟩
  | cons c cs ih =>
    simp only [containsCore, Bool.or_eq_true, ih, isPrefixOf_eq_true_iff]
    constructor
    · rintro (⟨t, ht⟩ | ⟨a, b, rfl⟩)
      · exact ⟨[], t, by simpa using ht⟩
      · exact ⟨c :: a, b, rfl⟩
    · rintro ⟨a, b, h⟩
      cases a with
      | nil => exact Or.inl ⟨b, by simpa using h⟩
      | cons x xs =>
        simp only [List.cons_append, List.cons.injEq] at h
        exact Or.inr ⟨xs, b, h.2⟩

lemma strContains_eq_true_iff (t s : String) :
    strContains t s = true ↔ ∃ pre post, t = pre ++ s ++ post := by
  rw [strContains, containsCore_eq_true_iff]
  constructor
  · rintro ⟨a, b, h⟩
    refine ⟨String.mk a, String.mk b, ?_⟩
    cases t with
    | mk d =>
      simp only [String.data] at h
      subst h
      rfl
  · rintro ⟨pre, post, rfl⟩
    exact ⟨pre.data, post.data, by cases pre; cases s; cases post; rfl⟩

lemma containsCore_cons_false {p : List Char} {c : Char} {cs : List Char}
    (h : containsCore p (c :: cs) = false) : containsCore p cs = false := by
  rw [containsCore, Bool.or_eq_false_iff] at h
  exact h.2

lemma replAllGo_of_not_contains (p : Char) (ps rep : List Char) :
    ∀ (fuel : Nat) (l : List Char), l.length ≤ fuel →
      containsCore (p :: ps) l = false → replAllGo p ps rep fuel l = l := by
  intro fuel
  induction fuel with
  | zero =>
    intro l hl _
    have : l = [] := List.eq_nil_of_length_eq_zero (Nat.le_zero.mp hl)
    subst this
    rfl
  | succ fuel ih =>
    intro l hl hc
    cases l with
    | nil => rfl
    | cons c cs =>
      have hpre : (p :: ps).isPrefixOf (c :: cs) = false := by
        rw [containsCore, Bool.or_eq_false_iff] at hc
        exact hc.1
      show (if (p :: ps).isPrefixOf (c :: cs) then _ else c :: replAllGo p ps rep fuel cs)
          = c :: cs
      rw [if_neg (by simp [hpre])]
      rw [ih cs (by simpa using hl) (containsCore_cons_false hc)]

/-- When the (non-empty) search string does not occur in the text, Python's
`str.replace` leaves the text unchanged: only occurrences are replaced. -/
lemma pyReplace_of_not_contains (t s rep : String) (hs : s ≠ "")
    (h : strContains t s = false) : pyReplace t s rep = t := by
  rw [pyReplace]
  rcases hsd : s.data with _ | ⟨p, ps⟩
  · exact absurd (by cases s with | mk d => simp at hsd; simp [hsd]) hs
  · rw [strContains, hsd] at h
    show String.mk (replAllGo p ps rep.data t.data.length t.data) = t
    rw [replAllGo_of_not_contains p ps rep.data t.data.length t.data le_rfl h]

/-- Claim C7: for an enabled literal-substitution rule with search string
`s` and replacement `rep`, if `full_replacement` is set and `s` occurs
anywhere in the input then the result is exactly `rep` (the input is
discarded); if `full_replacement` is set and `s` does not occur, the input
passes through; and with `full_replacement` unset every occurrence of `s`
is replaced (`pyReplace` is Python `str.replace`, which replaces all
non-overlapping occurrences left to right; in particular a text without
any occurrence of a non-empty search string passes through unchanged). -/
theorem C7_literal_rule_semantics (t s rep : String) (r : SimpleRule)
    (hen : r.enabled.getD true = true)
    (hs : r.search = some s) (hr : r.replace = some rep) :
    (r.full_replacement.getD false = true →
      ((∃ pre post, t = pre ++ s ++ post) → applySimpleRule t r = some rep) ∧
      (¬ (∃ pre post, t = pre ++ s ++ post) → applySimpleRule t r = some t)) ∧
    (r.full_replacement.getD false = false →
      applySimpleRule t r = some (pyReplace t s rep) ∧
      (s ≠ "" → ¬ (∃ pre post, t = pre ++ s ++ post) →
        applySimpleRule t r = some t)) := by
  unfold applySimpleRule
  rw [hen, hs, hr]
  simp only [if_true]
  constructor
  · intro hf
    rw [hf]
    simp only [if_true, Option.some_bind]
    constructor
    · intro hocc
      rw [if_pos ((strContains_eq_true_iff t s).mpr hocc)]
    · intro hnocc
      rw [if_neg ?_]
      intro hc
      exact hnocc ((strContains_eq_true_iff t s).mp hc)
  · intro hf
    rw [hf]
    constructor
    · simp
    · intro hse hnocc
      simp only [Bool.false_eq_true, if_false, Option.some_bind, Option.map_some']
      have hcf : strContains t s = false := by
        rw [Bool.eq_false_iff]
        intro hc
        exact hnocc ((strContains_eq_true_iff t s).mp hc)
      rw [pyReplace_of_not_contains t s rep hse hcf]

/-- Witness for C7 at a concrete rule and input: the full-replacement rule
`X → Y` discards `"aXb"` entirely. -/
theorem C7_witness :
    applySimpleRule "aXb"
      { full_replacement := some true, search := some "X", replace := some "Y" }
      = some "Y" :=
  ((C7_literal_rule_semantics "aXb" "X" "Y"
      { full_replacement := some true, search := some "X", replace := some "Y" }
      rfl rfl rfl).1 rfl).1 ⟨"a", "b", rfl⟩

/-- Claim C9: with no rule configuration, `clean_description` performs no
rule application or cleanup at all: the structured path joins its parts
with the fixed `" | "` separator, the fallback path returns its join, and
the sentinel is used only for an empty result (or an empty combined
narration). -/
theorem C9_no_config_passthrough (d1 d2 d3 : Option String) :
    clean_description d1 d2 d3 none =
      some (if fullDescOf d1 d2 d3 = "" then "Transaction bancaire"
        else
          (let parts := partsOf d1 d2 d3
           let r := if parts.length ≤ 1 then fallbackResult d1 d2
                    else String.intercalate " | " parts
           if r ≠ "" then r else "Transaction bancaire")) := by
  unfold clean_description result0Of sepOf
  split
  · rfl
  · rfl

/-- Helper: the combined narration treats an absent first field exactly as
an empty one. -/
lemma fullDescOf_none_eq_empty_left (d2 d3 : Option String) :
    fullDescOf none d2 d3 = fullDescOf (some "") d2 d3 := by
  simp [fullDescOf, descTruthy]

lemma filterMap_cons_congr {a b : Type} (f : a → Option b) (x : a) (l l' : List a)
    (h : List.filterMap f l = List.filterMap f l') :
    List.filterMap f (x :: l) = List.filterMap f (x :: l') := by
  simp only [List.filterMap_cons, h]

lemma fullDescOf_none_eq_empty_mid (d1 d3 : Option String) :
    fullDescOf d1 none d3 = fullDescOf d1 (some "") d3 := by
  unfold fullDescOf
  refine congrArg _ (filterMap_cons_congr _ _ _ _ ?_)
  simp [descTruthy]

lemma fullDescOf_none_eq_empty_right (d1 d2 : Option String) :
    fullDescOf d1 d2 none = fullDescOf d1 d2 (some "") := by
  unfold fullDescOf
  refine congrArg _ (filterMap_cons_congr _ _ _ _ (filterMap_cons_congr _ _ _ _ ?_))
  simp [descTruthy]

lemma bene0Of_none_eq_empty : bene0Of none = bene0Of (some "") := by decide

lemma simplePartsOf_none_eq_empty_left (d2 : Option String) :
    simplePartsOf none d2 = simplePartsOf (some "") d2 := by
  simp [simplePartsOf, descTruthy]

lemma simplePartsOf_none_eq_empty_right (d1 : Option String) :
    simplePartsOf d1 none = simplePartsOf d1 (some "") := by
  unfold simplePartsOf
  refine filterMap_cons_congr _ _ _ _ ?_
  simp [descTruthy]

lemma partsOf_none_eq_empty_left (d2 d3 : Option String) :
    partsOf none d2 d3 = partsOf (some "") d2 d3 := by
  simp only [partsOf, beneOf, bene0Of_none_eq_empty, fullDescOf_none_eq_empty_left]

lemma result0Of_none_eq_empty_left (d2 d3 : Option String) (co : Option RulesConfig) :
    result0Of none d2 d3 co = result0Of (some "") d2 d3 co := by
  simp only [result0Of, partsOf_none_eq_empty_left, fallbackResult,
    simplePartsOf_none_eq_empty_left]

/-- Claim C10: an absent (`None`) narration field is treated exactly like an
empty string by `clean_description`, in each of the three positions, and
the call still returns a defined string (shown here for the no-config
call; with a configuration the equalities transfer definedness to the
all-string case covered by C6). -/
theorem C10_none_fields_as_empty (d1 d2 d3 : Option String) (co : Option RulesConfig) :
    (clean_description none d2 d3 co = clean_description (some "") d2 d3 co ∧
     clean_description d1 none d3 co = clean_description d1 (some "") d3 co ∧
     clean_description d1 d2 none co = clean_description d1 d2 (some "") co) ∧
    (clean_description none d2 d3 none).isSome = true := by
  refine ⟨⟨?_, ?_, ?_⟩, ?_⟩
  · simp only [clean_description, fullDescOf_none_eq_empty_left,
      result0Of_none_eq_empty_left]
  · simp only [clean_description, fullDescOf_none_eq_empty_mid, result0Of, partsOf,
      fullDescOf_none_eq_empty_mid, fallbackResult, simplePartsOf_none_eq_empty_right]
  · simp only [clean_description, fullDescOf_none_eq_empty_right, result0Of, partsOf,
      fullDescOf_none_eq_empty_right]
  · unfold clean_description
    split <;> rfl

/-- Claim C5: `clean_description` never returns an empty string; an empty
combined narration yields exactly the sentinel `"Transaction bancaire"`,
and so does an empty post-rule-application result. -/
theorem C5_nonempty_sentinel (d1 d2 d3 : Option String) (co : Option RulesConfig) :
    (∀ s, clean_description d1 d2 d3 co = some s → s ≠ "") ∧
    (fullDescOf d1 d2 d3 = "" →
      clean_description d1 d2 d3 co = some "Transaction bancaire") ∧
    (∀ c, co = some c → fullDescOf d1 d2 d3 ≠ "" →
      apply_cleaning_rules (result0Of d1 d2 d3 co) c = some "" →
      clean_description d1 d2 d3 co = some "Transaction bancaire") := by
  refine ⟨?_, ?_, ?_⟩
  · intro s hs
    unfold clean_description at hs
    split at hs
    · cases hs
      decide
    · cases co with
      | none =>
        simp only [Option.some.injEq] at hs
        subst hs
        split
        · assumption
        · decide
      | some cfg =>
        simp only [Option.map_eq_some'] at hs
        obtain ⟨r, _, hr⟩ := hs
        subst hr
        split
        · assumption
        · decide
  · intro h
    unfold clean_description
    rw [if_pos h]
  · intro c hc hfull happly
    subst hc
    unfold clean_description
    rw [if_neg hfull]
    show Option.map _ (apply_cleaning_rules (result0Of d1 d2 d3 (some c)) c) = _
    rw [happly]
    rfl

/-- Witness for C5: the sentinel is non-empty; an all-empty narration hits
the empty-join sentinel; and a configuration whose full-replacement rule
empties every text hits the empty-post-rule sentinel. -/
theorem C5_witness :
    "Transaction bancaire" ≠ "" ∧
    clean_description none none none none = some "Transaction bancaire" ∧
    clean_description (some "A") none none (some cfgKillAll)
      = some "Transaction bancaire" := by
  refine ⟨?_, ?_, ?_⟩
  · exact (C5_nonempty_sentinel none none none none).1 "Transaction bancaire"
      ((C5_nonempty_sentinel none none none none).2.1 (by decide))
  · exact (C5_nonempty_sentinel none none none none).2.1 (by decide)
  · exact (C5_nonempty_sentinel (some "A") none none (some cfgKillAll)).2.2
      cfgKillAll rfl (by decide) (by decide)

lemma applySimpleRule_isSome (t : String) (r : SimpleRule) (h : WFSimple r) :
    (applySimpleRule t r).isSome = true := by
  obtain ⟨h1, h2⟩ := h
  obtain ⟨s, hs⟩ := Option.isSome_iff_exists.mp h1
  obtain ⟨rep, hrep⟩ := Option.isSome_iff_exists.mp h2
  unfold applySimpleRule
  rw [hs, hrep]
  split
  · split
    · simp only [Option.some_bind]
      split <;> rfl
    · rfl
  · rfl

lemma applyRegexRule_isSome (t : String) (r : RegexRule) (h : WFRegex r) :
    (applyRegexRule t r).isSome = true := by
  obtain ⟨h1, h2⟩ := h
  obtain ⟨p, hp⟩ := Option.isSome_iff_exists.mp h1
  obtain ⟨rep, hrep⟩ := Option.isSome_iff_exists.mp h2
  unfold applyRegexRule
  rw [hp, hrep]
  split
  · split
    · simp only [Option.some_bind]
      split <;> rfl
    · rfl
  · rfl

lemma foldlM_simple_isSome (rs : List SimpleRule) (h : ∀ r ∈ rs, WFSimple r) :
    ∀ t : String, (rs.foldlM applySimpleRule t).isSome = true := by
  induction rs with
  | nil => intro t; rfl
  | cons r rs ih =>
    intro t
    rw [List.foldlM_cons]
    obtain ⟨u, hu⟩ := Option.isSome_iff_exists.mp
      (applySimpleRule_isSome t r (h r (List.mem_cons_self r rs)))
    rw [hu]
    exact ih (fun r' hr' => h r' (List.mem_cons_of_mem r hr')) u

lemma foldlM_regex_isSome (rs : List RegexRule) (h : ∀ r ∈ rs, WFRegex r) :
    ∀ t : String, (rs.foldlM applyRegexRule t).isSome = true := by
  induction rs with
  | nil => intro t; rfl
  | cons r rs ih =>
    intro t
    rw [List.foldlM_cons]
    obtain ⟨u, hu⟩ := Option.isSome_iff_exists.mp
      (applyRegexRule_isSome t r (h r (List.mem_cons_self r rs)))
    rw [hu]
    exact ih (fun r' hr' => h r' (List.mem_cons_of_mem r hr')) u

lemma apply_cleaning_rules_isSome (t : String) (c : RulesConfig) (h : WFConfig c) :
    (apply_cleaning_rules t c).isSome = true := by
  obtain ⟨h1, h2, h3⟩ := h
  unfold apply_cleaning_rules
  split
  · rfl
  · obtain ⟨u1, hu1⟩ := Option.isSome_iff_exists.mp (foldlM_simple_isSome _ h1 t)
    simp only [hu1, Option.some_bind]
    obtain ⟨u2, hu2⟩ := Option.isSome_iff_exists.mp (foldlM_regex_isSome _ h2 u1)
    simp only [hu2, Option.some_bind]
    obtain ⟨u3, hu3⟩ := Option.isSome_iff_exists.mp (foldlM_simple_isSome _ h3 u2)
    simp only [hu3, Option.map_some']
    rfl

/-- Claim C6: given a well-formed rule configuration, `apply_cleaning_rules`
and `clean_description` are total — they return a defined string on every
input (no modelled `KeyError` is raised), with or without a configuration. -/
theorem C6_totality (t : String) (c : RulesConfig) (h : WFConfig c) :
    (apply_cleaning_rules t c).isSome = true ∧
    ∀ d1 d2 d3 : Option String,
      (clean_description d1 d2 d3 (some c)).isSome = true ∧
      (clean_description d1 d2 d3 none).isSome = true := by
  refine ⟨apply_cleaning_rules_isSome t c h, ?_⟩
  intro d1 d2 d3
  constructor
  · unfold clean_description
    split
    · rfl
    · obtain ⟨r, hr⟩ := Option.isSome_iff_exists.mp
        (apply_cleaning_rules_isSome (result0Of d1 d2 d3 (some c)) c h)
      show (Option.map _ (apply_cleaning_rules (result0Of d1 d2 d3 (some c)) c)).isSome = true
      rw [hr]
      rfl
  · unfold clean_description
    split <;> rfl

/-- Witness for C6 at a concrete well-formed configuration and inputs. -/
theorem C6_witness :
    (apply_cleaning_rules "a ; x" cfgTotality).isSome = true ∧
    (clean_description (some "a") (some "b") none (some cfgTotality)).isSome = true := by
  refine ⟨(C6_totality "a ; x" cfgTotality ?_).1,
    ((C6_totality "a ; x" cfgTotality ?_).2 (some "a") (some "b") none).1⟩ <;>
  · refine ⟨?_, ?_, ?_⟩ <;> decide

/-- Claim C1 (counterexample): on the fallback path the Rule Application
Engine does run.  With primary field `"A"` alone (one structured part, so
the fallback path is taken) and a configuration substituting `A → B`, the
returned description is the rule-applied `"B"`, not the fallback join. -/
theorem C1_counterexample :
    ¬ (∀ (d1 d2 d3 : Option String) (cfg : RulesConfig),
        fullDescOf d1 d2 d3 ≠ "" → (partsOf d1 d2 d3).length ≤ 1 →
        clean_description d1 d2 d3 (some cfg) = some (fallbackResult d1 d2)) := by
  intro h
  have hx := h (some "A") none none cfgAtoB (by decide) (by decide)
  rw [show fallbackResult (some "A") none = "A" from by decide] at hx
  exact absurd hx (by decide)

/-- Claim C1 (amended): when the structured part list has fewer than two
entries, the description is the fallback join passed through the Rule
Application Engine — rule application runs on the result of both paths,
not only on the structured one. -/
theorem C1_rules_applied_on_fallback (d1 d2 d3 : Option String) (cfg : RulesConfig)
    (h1 : fullDescOf d1 d2 d3 ≠ "") (h2 : (partsOf d1 d2 d3).length ≤ 1) :
    clean_description d1 d2 d3 (some cfg) =
      (apply_cleaning_rules (fallbackResult d1 d2) cfg).map
        (fun r => if r ≠ "" then r else "Transaction bancaire") := by
  unfold clean_description
  rw [if_neg h1]
  show Option.map _ (apply_cleaning_rules (result0Of d1 d2 d3 (some cfg)) cfg) = _
  rw [result0Of, if_pos h2]

/-- Witness for the amended C1 at the counterexample input: the fallback
join `"A"` is rewritten to `"B"` by the configured rule. -/
theorem C1_witness :
    clean_description (some "A") none none (some cfgAtoB) =
      (apply_cleaning_rules (fallbackResult (some "A") none) cfgAtoB).map
        (fun r => if r ≠ "" then r else "Transaction bancaire") :=
  C1_rules_applied_on_fallback (some "A") none none cfgAtoB (by decide) (by decide)

/-- Claim C4 (counterexample): the reason/beneficiary comparison is not
whitespace-normalized.  With primary `"John  Doe"` (two spaces) and a
motif cleaning to `"John Doe"`, the two agree after whitespace
normalization, yet the cleaned reason still enters the parts list
(`partsOf` evaluates to `["John  Doe", "John Doe"]` there). -/
theorem C4_counterexample :
    ¬ (∀ (d1 d2 d3 : Option String) (m0 : String),
        motifRawOf (fullDescOf d1 d2 d3) = some m0 →
        normWS (motifClean m0) = normWS (beneOf d1) →
        motifClean m0 ∉ partsOf d1 d2 d3) := by
  intro h
  exact h (some "John  Doe") (some "Motif du paiement: John Doe") none "John Doe"
    (by decide) (by decide) (by decide)

/-- Claim C4 (amended): the cleaned payment reason is appended only when it
is non-empty and differs from the (unnormalized) beneficiary under plain
case-sensitive string equality; when the cleaned reason equals the
beneficiary exactly, the parts list contains only the beneficiary and
reference parts. -/
theorem C4_exact_equality_dedup (d1 d2 d3 : Option String) (m0 : String)
    (hm : motifRawOf (fullDescOf d1 d2 d3) = some m0)
    (heq : motifClean m0 = beneOf d1) :
    partsOf d1 d2 d3 =
      (if bene0Of d1 ≠ "" then [beneOf d1] else [])
        ++ qrrPartOf (fullDescOf d1 d2 d3) := by
  simp only [partsOf, motifPartOf, hm]
  by_cases h0 : m0 = ""
  · subst h0
    simp
  · rw [if_pos h0]
    have : ¬ (motifClean m0 ≠ "" ∧ motifClean m0 ≠ beneOf d1) := by
      intro hc
      exact hc.2 heq
    rw [if_neg this]
    simp


/-- Witness for the amended C4: primary `"X"` with motif `"X"` — the cleaned
reason equals the beneficiary exactly, so only the beneficiary part
remains. -/
theorem C4_witness :
    partsOf (some "X") (some "Motif du paiement: X") none =
      (if bene0Of (some "X") ≠ "" then [beneOf (some "X")] else [])
        ++ qrrPartOf (fullDescOf (some "X") (some "Motif du paiement: X") none) :=
  C4_exact_equality_dedup (some "X") (some "Motif du paiement: X") none "X"
    (by decide) (by decide)

/-- Claim C3 (counterexample): applying the Rule Application Engine twice is
not the same as applying it once, even when the no-rematch hypothesis
holds vacuously (no substitution rules at all, default cleanup): on
`";:"` the first pass strips the trailing colon leaving `";"`, and the
second pass strips that semicolon leaving `""`. -/
theorem C3_counterexample :
    ¬ (∀ (s : String) (c : RulesConfig), noRematch c →
        ∀ r, apply_cleaning_rules s c = some r →
          apply_cleaning_rules r c = some r) := by
  intro h
  have hnr : noRematch {} := by
    constructor <;> intro r hr <;> simp at hr
  have hx := h ";:" {} hnr ";" (by decide)
  exact absurd hx (by decide)

lemma head?_dropWhile_false (p : Char → Bool) :
    ∀ (l : List Char) (c : Char), (l.dropWhile p).head? = some c → p c = false := by
  intro l
  induction l with
  | nil => intro c h; simp [List.dropWhile] at h
  | cons x xs ih =>
    intro c h
    rw [List.dropWhile_cons] at h
    split at h
    · exact ih c h
    · simp only [List.head?_cons, Option.some.injEq] at h
      subst h
      simp_all

lemma collapseGo_head? (fuel : Nat) (l : List Char) (h : l.length ≤ fuel) :
    (collapseGo fuel l).head? = l.head?.map (fun c => if pyIsSpace c then ' ' else c) := by
  cases l with
  | nil => simp [collapseGo]
  | cons c cs =>
    cases fuel with
    | zero => simp at h
    | succ fuel =>
      show (if pyIsSpace c then ' ' :: collapseGo fuel (cs.dropWhile pyIsSpace)
            else c :: collapseGo fuel cs).head? = _
      by_cases hw : pyIsSpace c = true
      · rw [if_pos hw]
        simp [hw]
      · rw [if_neg hw]
        simp only [Bool.not_eq_true] at hw
        simp [hw]

lemma niceL_nil : NiceL [] := ⟨by simp, List.chain'_nil⟩

lemma niceL_tail {c : Char} {cs : List Char} (h : NiceL (c :: cs)) : NiceL cs :=
  ⟨fun x hx => h.1 x (List.mem_cons_of_mem c hx), h.2.tail⟩

lemma nice_collapseGo : ∀ (fuel : Nat) (l : List Char), l.length ≤ fuel →
    NiceL (collapseGo fuel l) := by
  intro fuel
  induction fuel with
  | zero =>
    intro l h
    have : l = [] := List.eq_nil_of_length_eq_zero (Nat.le_zero.mp h)
    subst this
    exact niceL_nil
  | succ fuel ih =>
    intro l h
    cases l with
    | nil => exact niceL_nil
    | cons c cs =>
      have hcs : cs.length ≤ fuel := by simpa using h
      have hdw : (cs.dropWhile pyIsSpace).length ≤ fuel :=
        le_trans (List.dropWhile_suffix pyIsSpace).length_le hcs
      show NiceL (if pyIsSpace c then ' ' :: collapseGo fuel (cs.dropWhile pyIsSpace)
            else c :: collapseGo fuel cs)
      by_cases hw : pyIsSpace c = true
      · rw [if_pos hw]
        have hnice := ih (cs.dropWhile pyIsSpace) hdw
        refine ⟨?_, ?_⟩
        · intro x hx hxs
          rcases List.mem_cons.mp hx with hx | hx
          · exact hx
          · exact hnice.1 x hx hxs
        · rw [List.chain'_cons']
          refine ⟨?_, hnice.2⟩
          intro y hy
          rw [Option.mem_def, collapseGo_head? fuel _ hdw] at hy
          rw [Option.map_eq_some'] at hy
          obtain ⟨z, hz, rfl⟩ := hy
          have hzf : pyIsSpace z = false := head?_dropWhile_false pyIsSpace cs z hz
          rw [if_neg (by simp [hzf])]
          intro hcon
          rw [hzf] at hcon
          exact Bool.false_ne_true hcon.2
      · rw [if_neg hw]
        have hnice := ih cs hcs
        refine ⟨?_, ?_⟩
        · intro x hx hxs
          rcases List.mem_cons.mp hx with rfl | hx
          · exact absurd hxs hw
          · exact hnice.1 x hx hxs
        · rw [List.chain'_cons']
          refine ⟨?_, hnice.2⟩
          intro y _
          intro hcon
          exact hw hcon.1

lemma nice_collapseCore (l : List Char) : NiceL (collapseCore l) :=
  nice_collapseGo l.length l le_rfl

lemma collapseGo_of_nice : ∀ (fuel : Nat) (l : List Char), l.length ≤ fuel →
    NiceL l → collapseGo fuel l = l := by
  intro fuel
  induction fuel with
  | zero =>
    intro l h _
    have : l = [] := List.eq_nil_of_length_eq_zero (Nat.le_zero.mp h)
    subst this
    rfl
  | succ fuel ih =>
    intro l h hn
    cases l with
    | nil => rfl
    | cons c cs =>
      have hcs : cs.length ≤ fuel := by simpa using h
      show (if pyIsSpace c then ' ' :: collapseGo fuel (cs.dropWhile pyIsSpace)
            else c :: collapseGo fuel cs) = c :: cs
      by_cases hw : pyIsSpace c = true
      · have hc : c = ' ' := hn.1 c (List.mem_cons_self c cs) hw
        have hdw : cs.dropWhile pyIsSpace = cs := by
          cases cs with
          | nil => rfl
          | cons y ys =>
            have hr := (List.chain'_cons'.mp hn.2).1 y (by simp)
            have hy : pyIsSpace y = false := by
              by_contra hy'
              rw [Bool.not_eq_false] at hy'
              exact hr ⟨hw, hy'⟩
            rw [List.dropWhile_cons, if_neg (by simp [hy])]
        rw [if_pos hw, hdw, ih cs hcs (niceL_tail hn), hc]
      · rw [if_neg hw, ih cs hcs (niceL_tail hn)]

lemma collapseCore_of_nice (l : List Char) (h : NiceL l) : collapseCore l = l :=
  collapseGo_of_nice l.length l le_rfl h

lemma exists_append_rstrip (p : Char → Bool) (u : List Char) :
    ∃ t, u = rstripCore p u ++ t := by
  obtain ⟨t, ht⟩ := List.dropWhile_suffix (l := u.reverse) p
  refine ⟨t.reverse, ?_⟩
  rw [rstripCore]
  calc u = u.reverse.reverse := (List.reverse_reverse u).symm
  _ = (t ++ u.reverse.dropWhile p).reverse := by rw [ht]
  _ = (u.reverse.dropWhile p).reverse ++ t.reverse := by rw [List.reverse_append]

lemma head?_append_left {x t : List Char} {c : Char} (h : x.head? = some c) :
    (x ++ t).head? = some c := by
  cases x with
  | nil => simp at h
  | cons a as => simpa using h

lemma head?_rstrip_some (p : Char → Bool) (u : List Char) (c : Char)
    (h : (rstripCore p u).head? = some c) : u.head? = some c := by
  obtain ⟨t, ht⟩ := exists_append_rstrip p u
  rw [ht]
  exact head?_append_left h

lemma getLast?_rstrip_false (p : Char → Bool) (u : List Char) (c : Char)
    (h : (rstripCore p u).getLast? = some c) : p c = false := by
  rw [rstripCore, List.getLast?_reverse] at h
  exact head?_dropWhile_false p u.reverse c h

lemma stripped_stripCore (l : List Char) : StrippedL (stripCore pyIsSpace l) := by
  constructor
  · intro c h
    have h1 := head?_rstrip_some pyIsSpace (l.dropWhile pyIsSpace) c h
    exact head?_dropWhile_false pyIsSpace l c h1
  · intro c h
    exact getLast?_rstrip_false pyIsSpace _ c h

lemma stripCore_of_stripped (l : List Char) (h : StrippedL l) :
    stripCore pyIsSpace l = l := by
  have h1 : l.dropWhile pyIsSpace = l := by
    cases l with
    | nil => rfl
    | cons c cs => rw [List.dropWhile_cons, if_neg (by simp [h.1 c rfl])]
  rw [stripCore, h1, rstripCore]
  have h2 : l.reverse.dropWhile pyIsSpace = l.reverse := by
    cases hrev : l.reverse with
    | nil => rfl
    | cons c cs =>
      have hlast : l.getLast? = some c := by
        rw [← List.head?_reverse, hrev]
        rfl
      rw [List.dropWhile_cons, if_neg (by simp [h.2 c hlast])]
  rw [h2, List.reverse_reverse]

lemma nice_take {l : List Char} (h : NiceL l) (n : Nat) : NiceL (l.take n) :=
  ⟨fun c hc hcs => h.1 c (List.take_subset n l hc) hcs, h.2.take n⟩

lemma nice_dropWhile {l : List Char} (h : NiceL l) (p : Char → Bool) :
    NiceL (l.dropWhile p) :=
  ⟨fun c hc hcs => h.1 c ((List.dropWhile_suffix p).sublist.subset hc) hcs,
   h.2.suffix (List.dropWhile_suffix p)⟩

lemma nice_reverse {l : List Char} (h : NiceL l) : NiceL l.reverse := by
  refine ⟨fun c hc hcs => h.1 c (List.mem_reverse.mp hc) hcs, ?_⟩
  rw [List.chain'_reverse]
  exact h.2.imp fun a b hab => fun hc => hab ⟨hc.2, hc.1⟩

lemma nice_rstrip {l : List Char} (h : NiceL l) (p : Char → Bool) :
    NiceL (rstripCore p l) :=
  nice_reverse (nice_dropWhile (nice_reverse h) p)

lemma nice_stripCore {l : List Char} (h : NiceL l) : NiceL (stripCore pyIsSpace l) :=
  nice_rstrip (nice_dropWhile h pyIsSpace) pyIsSpace

lemma nice_trunc {l : List Char} (h : NiceL l) (m : Int) : NiceL (truncCore l m) := by
  rw [truncCore]
  split
  · exact nice_rstrip (nice_take h _) pyIsSpace
  · exact h

lemma rstripCore_length_le (p : Char → Bool) (l : List Char) :
    (rstripCore p l).length ≤ l.length := by
  rw [rstripCore, List.length_reverse]
  calc (l.reverse.dropWhile p).length ≤ l.reverse.length :=
        (List.dropWhile_suffix p).length_le
  _ = l.length := List.length_reverse l

lemma trunc_idem (l : List Char) (m : Int) :
    truncCore (truncCore l m) m = truncCore l m := by
  by_cases h : 0 < m ∧ m < (l.length : Int)
  · have hinner : truncCore l m = rstripCore pyIsSpace (l.take m.toNat) := by
      rw [truncCore, if_pos h]
    rw [truncCore, if_neg ?_]
    intro hcon
    rw [hinner] at hcon
    have h1 : (rstripCore pyIsSpace (l.take m.toNat)).length ≤ (l.take m.toNat).length :=
      rstripCore_length_le _ _
    have h2 : (l.take m.toNat).length ≤ m.toNat := by
      rw [List.length_take]
      omega
    have h3 : (m.toNat : Int) = m := Int.toNat_of_nonneg (le_of_lt h.1)
    omega
  · have hinner : truncCore l m = l := by
      rw [truncCore, if_neg h]
    rw [truncCore, hinner, if_neg h]

lemma head?_take_pos {l : List Char} {k : Nat} (hk : 0 < k) :
    (l.take k).head? = l.head? := by
  cases l with
  | nil => simp
  | cons c cs =>
    cases k with
    | zero => omega
    | succ k => simp

lemma stripped_trunc {l : List Char} (h : StrippedL l) (m : Int) :
    StrippedL (truncCore l m) := by
  rw [truncCore]
  split
  case isTrue hc =>
    constructor
    · intro c hcc
      have h1 := head?_rstrip_some pyIsSpace (l.take m.toNat) c hcc
      rw [head?_take_pos (by omega)] at h1
      exact h.1 c h1
    · intro c hcc
      exact getLast?_rstrip_false pyIsSpace _ c hcc
  case isFalse => exact h

lemma cleanupCore_idem (opts : CleanupOptions)
    (h1 : opts.remove_trailing_semicolons.getD true = false)
    (h2 : opts.remove_trailing_colons.getD true = false)
    (h3 : opts.remove_empty_parentheses.getD true = false) (l : List Char) :
    cleanupCore (cleanupCore l opts) opts = cleanupCore l opts := by
  simp only [cleanupCore, h1, h2, h3, Bool.false_eq_true, if_false]
  rcases Bool.eq_false_or_eq_true (opts.remove_duplicate_spaces.getD true) with hd | hd <;>
  rcases Bool.eq_false_or_eq_true (opts.trim_whitespace.getD true) with hw | hw <;>
  simp only [hd, hw, Bool.false_eq_true, eq_self_iff_true, if_false, if_true]
  · rw [collapseCore_of_nice _ (nice_trunc (nice_stripCore (nice_collapseCore l)) _),
      stripCore_of_stripped _ (stripped_trunc (stripped_stripCore (collapseCore l)) _)]
    exact trunc_idem _ _
  · rw [collapseCore_of_nice _ (nice_trunc (nice_collapseCore l) _)]
    exact trunc_idem _ _
  · rw [stripCore_of_stripped _ (stripped_trunc (stripped_stripCore l) _)]
    exact trunc_idem _ _
  · exact trunc_idem l _

/-- Claim C3 (amended): with the three substitution-rule lists empty and the
trailing-semicolon, trailing-colon and empty-parentheses cleanup options
disabled, applying the Rule Application Engine twice equals applying it
once (whitespace collapsing, trimming and truncation form an idempotent
pipeline). -/
theorem C3_idempotent_restricted (t : String) (c : RulesConfig)
    (he : emptyRuleLists c) (hs : stripOptsOff c) (r : String)
    (h : apply_cleaning_rules t c = some r) :
    apply_cleaning_rules r c = some r := by
  obtain ⟨he1, he2, he3⟩ := he
  obtain ⟨hs1, hs2, hs3⟩ := hs
  by_cases hen : c.enabled.getD true = true
  · unfold apply_cleaning_rules at h ⊢
    rw [if_neg (not_not_intro hen)] at h ⊢
    simp only [he1, he2, he3, List.foldlM_nil, pure, Option.some_bind,
      Option.map_some'] at h ⊢
    have hkey := cleanupCore_idem ((c.rules.getD {}).cleanup_options.getD {}) hs1 hs2 hs3 t.data
    have hr := Option.some.inj h
    subst hr
    exact congrArg (fun x => some (String.mk x)) hkey
  · unfold apply_cleaning_rules at h ⊢
    rw [if_pos hen] at h ⊢

/-- Witness for the amended C3: with the stripping options disabled and no
rules, `"a  b "` cleans to `"a b"`, which is a fixed point of the second
application. -/
theorem C3_witness :
    apply_cleaning_rules "a  b " cfgNoStrip = some "a b" ∧
    apply_cleaning_rules "a b" cfgNoStrip = some "a b" :=
  ⟨by decide,
   C3_idempotent_restricted "a  b " cfgNoStrip ⟨rfl, rfl, rfl⟩ ⟨rfl, rfl, rfl⟩ "a b"
     (by decide)⟩
